import Mathlib

/-!
# socketcast: the per-connection Client (client.go)

A shallow embedding of `client.go`.  One `World` holds the Client under study,
the embedding application own state and the trace of every effect the Client
performed on its collaborators (logger, Hub command channels, websocket
connection, hooks, goroutine launches), in program order.

Conventions of the embedding:

* The Hub, the logger and the websocket connection live outside `client.go`.
  A call on one of them is recorded as an `Event`; the call is assumed to
  return (the Hub consumes its commands).
* A hook (`OnConnect`, `OnDisconnect`, `OnMessage`) is application code.  Its
  invocation is an `Event`; it may change the application state `α`, and
  `OnMessage` returns the boolean the inbound loop branches on.  What a hook
  does with the `*Client` it is handed is not part of the embedding.
* `go f()` is recorded as an `Event`; the launched loop is run by applying
  `readPump` / `writePump` to the world it starts in.
* `c.Lock()` / `defer c.Unlock()` make the bracketed body atomic with respect
  to the other bodies bracketed the same way.  The embedding runs every such
  body as one function application, so concurrent callers appear as a
  sequence of applications.
* The channel `c.send` is a bounded FIFO: `buf` is the buffer, `sendq` the
  payloads of the senders currently blocked on a full buffer, oldest first.
* Results the environment decides (what `ReadMessage` returns, whether a write
  succeeds, which `select` case fires) are inputs of the loops.
-/

namespace Socketcast

/-- A byte payload, the `[]byte` of Go. -/
abbrev Bytes := List (Fin 256)

/-- Handle of the underlying websocket connection, the identity of the Client. -/
abbrev Conn := Nat

/-- Severity of a logger call. -/
inductive Level where
  | debug
  | info
  | warn
  | error
  deriving DecidableEq, Repr

/-- The log statements of `client.go`, one constructor per call site. -/
inductive LogMsg where
  /-- Destroy: `Debugf("About to destroy client: %s", ...)` -/
  | aboutToDestroy
  /-- Destroy: `Infof("Destroyed client: %s", ...)` -/
  | destroyed
  /-- readPump: `Warnf("UnexpectedCloseError, closing connection: %s", ...)` -/
  | unexpectedCloseError
  /-- readPump: `Infof("Client %s disconnected", ...)` -/
  | clientDisconnected
  /-- readPump: `Warn(err)` -/
  | readError
  /-- Send: `Error("Trying to convert to json but failed: ...")` -/
  | marshalFailed
  /-- The constructor: `Debug("New client is being created")` -/
  | newClientCreated
  deriving DecidableEq, Repr

/-- The two goroutines of a Client. -/
inductive Loop where
  | readPump
  | writePump
  deriving DecidableEq, Repr

/-- An effect of the Client on its collaborators. -/
inductive Event where
  | log (lvl : Level) (m : LogMsg)
  /-- Go: `c.Pool.hub.register <- c` -/
  | register (c : Conn)
  /-- Go: `c.Pool.hub.unregister <- c` -/
  | unregister (c : Conn)
  /-- Go: `c.Active = b` -/
  | setActive (b : Bool)
  /-- Go: `c.Conn.Close()` -/
  | connClose (c : Conn)
  /-- Go: `go c.readPump()` / `go c.writePump()` -/
  | go (l : Loop)
  | onConnect (c : Conn)
  | onDisconnect (c : Conn)
  | onMessage (c : Conn) (payload : Bytes)
  | setReadLimit
  | setReadDeadline
  | setPongHandler
  /-- Go: `c.Conn.ReadMessage()`, with whether it returned a message -/
  | readMessage (ok : Bool)
  | setWriteDeadline
  /-- Go: `time.NewTicker(pingPeriod)` -/
  | newTicker
  /-- Go: `c.Conn.WriteMessage(websocket.CloseMessage, []byte{})`, result dropped -/
  | writeCloseMessage
  /-- Go: `c.Conn.WriteMessage(websocket.PingMessage, nil)`, with whether it succeeded -/
  | writePing (ok : Bool)
  /-- Go: `c.Conn.NextWriter(websocket.TextMessage)` -/
  | nextWriter (ok : Bool)
  /-- Go: `w.Write(message)`, result dropped -/
  | write (payload : Bytes)
  /-- Go: `w.Close()` -/
  | writerClose (ok : Bool)
  | tickerStop
  deriving DecidableEq, Repr

/-- The channel `c.send`. -/
structure Chan where
  buf : List Bytes
  cap : Nat
  closed : Bool
  sendq : List Bytes
  deriving DecidableEq, Repr

structure Auth where
  Token : String
  Authenticated : Bool
  deriving DecidableEq, Repr

/-- The part of `Config.Buffers` that `client.go` reads: the size handed to
`make`, a Go `int` (the spec: `SendQueueSize: int`), which may be negative. -/
structure Buffers where
  Send : Int
  deriving DecidableEq, Repr

/-- The part of `Config` that `client.go` reads; `α` is the application state
the hooks act on.  In Go a hook is handed the `*Client` and may use it (store
metadata, call `Send`); the embedding records the invocation and the change of
application state only, so what a hook does to the Client it is handed, and
what the launched goroutines do concurrently, is outside the embedding. -/
structure Config (α : Type) where
  Buffers : Buffers
  DisableClientAutostart : Bool
  OnConnect : α → α
  OnDisconnect : α → α
  OnMessage : α → Bytes → Bool × α

/-- The part of `Pool` that `client.go` reads.  `id` stands for the pointer. -/
structure Pool (α : Type) where
  id : Nat
  Config : Config α

structure Client (α : Type) where
  Pool : Pool α
  Conn : Conn
  send : Chan
  /-- Go: `cmap.ConcurrentMap`, as an association list -/
  Metadata : List (String × String)
  Auth : Auth
  Active : Bool

structure World (α : Type) where
  c : Client α
  app : α
  trace : List Event

variable {α : Type}

/-- Record one effect, after those already recorded. -/
def World.emit (w : World α) (e : Event) : World α :=
  { w with trace := w.trace ++ [e] }

def World.logf (w : World α) (lvl : Level) (m : LogMsg) : World α :=
  w.emit (.log lvl m)

/-- Go: `c.Pool.hub.register <- c` -/
def World.hubRegister (w : World α) : World α :=
  w.emit (.register w.c.Conn)

/-- Go: `c.Pool.hub.unregister <- c` -/
def World.hubUnregister (w : World α) : World α :=
  w.emit (.unregister w.c.Conn)

/-- Go: `c.Active = b` -/
def World.setActive (w : World α) (b : Bool) : World α :=
  { w with c := { w.c with Active := b }, trace := w.trace ++ [.setActive b] }

/-- Go: `c.Conn.Close()` -/
def World.connClose (w : World α) : World α :=
  w.emit (.connClose w.c.Conn)

/-- Go: `c.Pool.Config.OnConnect(c)` -/
def World.onConnect (w : World α) : World α :=
  { w with app := w.c.Pool.Config.OnConnect w.app, trace := w.trace ++ [.onConnect w.c.Conn] }

/-- Go: `c.Pool.Config.OnDisconnect(c)` -/
def World.onDisconnect (w : World α) : World α :=
  { w with app := w.c.Pool.Config.OnDisconnect w.app,
           trace := w.trace ++ [.onDisconnect w.c.Conn] }

/-- Go: `c.Pool.Config.OnMessage(c, message)` -/
def World.onMessage (w : World α) (message : Bytes) : Bool × World α :=
  let r := w.c.Pool.Config.OnMessage w.app message
  (r.1, { w with app := r.2, trace := w.trace ++ [.onMessage w.c.Conn message] })

/-- Go: `func (c *Client) Start()` -/
def Client.Start (w : World α) : World α :=
  let w := w.setActive true
  let w := w.hubRegister
  let w := w.emit (.go .readPump)
  let w := w.emit (.go .writePump)
  w.onConnect

/-- Go: `func (c *Client) Destroy()`; the body runs under `c.Lock()`. -/
def Client.Destroy (w : World α) : World α :=
  let w := w.logf .debug .aboutToDestroy
  let w := w.hubUnregister
  let w := w.setActive false
  let w := w.connClose
  let w := w.logf .info .destroyed
  w.onDisconnect

/-- The composite literal of `newClient`,
`&Client{Pool: pool, Conn: conn, send: ch, Metadata: cmap.New()}`: the fields
left out have their zero value. -/
def clientLiteral (pool : Pool α) (conn : Conn) (ch : Chan) : Client α :=
  { Pool := pool, Conn := conn, send := ch, Metadata := [],
    Auth := { Token := "", Authenticated := false }, Active := false }

/-- An error returned by `c.Conn.ReadMessage()`: `closeCode` is the code when
the value is a `*websocket.CloseError`, `text` is what `err.Error()` returns. -/
structure ReadErr where
  closeCode : Option Nat
  text : String
  deriving DecidableEq, Repr

/-- What one call of `c.Conn.ReadMessage()` returns. -/
inductive ReadResult where
  | message (payload : Bytes)
  | error (err : ReadErr)
  deriving DecidableEq, Repr

/-- Go: `websocket.CloseGoingAway` -/
def CloseGoingAway : Nat := 1001

/-- Go: `websocket.CloseAbnormalClosure` -/
def CloseAbnormalClosure : Nat := 1006

/-- Go: `websocket.IsUnexpectedCloseError(err, expectedCodes...)`: the error is a
close error and its code is none of the expected ones. -/
def IsUnexpectedCloseError (err : ReadErr) (expectedCodes : List Nat) : Bool :=
  match err.closeCode with
  | some code => !(expectedCodes.contains code)
  | none => false

/-- The branch of `readPump` taken on a read error: the log call it makes. -/
def readErrorLog (err : ReadErr) : Level × LogMsg :=
  if IsUnexpectedCloseError err [CloseGoingAway, CloseAbnormalClosure] then
    (.warn, .unexpectedCloseError)
  else if err.text == "websocket: close 1006 (abnormal closure): unexpected EOF" then
    (.info, .clientDisconnected)
  else
    (.warn, .readError)

/-- The `for` loop of `readPump` over the results the successive calls of
`ReadMessage` return.  The boolean tells whether the loop was left by `break`;
with no result left the goroutine is still inside `ReadMessage`. -/
def readLoop : List ReadResult → World α → Bool × World α
  | [], w => (false, w)
  | .error err :: _, w =>
    let w := w.emit (.readMessage false)
    let w := w.logf (readErrorLog err).1 (readErrorLog err).2
    (true, w)
  | .message message :: rest, w =>
    let w := w.emit (.readMessage true)
    let r := w.onMessage message
    if r.1 then (true, r.2) else readLoop rest r.2

/-- Go: `func (c *Client) readPump()`; the deferred `c.Destroy()` runs when the
function returns. -/
def Client.readPump (reads : List ReadResult) (w : World α) : World α :=
  let w := w.emit .setReadLimit
  let w := w.emit .setReadDeadline
  let w := w.emit .setPongHandler
  let r := readLoop reads w
  if r.1 then Client.Destroy r.2 else r.2

/-! ## The outbound queue -/

/-- What a send on the channel does. -/
inductive ChanSend where
  /-- the value went into the buffer, the sender goes on -/
  | done (ch : Chan)
  /-- the buffer is full, the sender waits in `sendq` -/
  | blocked (ch : Chan)
  /-- send on a closed channel -/
  | panicked
  deriving DecidableEq, Repr

/-- Go: `ch <- data` -/
def Chan.send (ch : Chan) (data : Bytes) : ChanSend :=
  if ch.closed then .panicked
  else if ch.buf.length < ch.cap then .done { ch with buf := ch.buf ++ [data] }
  else .blocked { ch with sendq := ch.sendq ++ [data] }

/-- Go: `v, ok := <-ch` when the receive is ready, `none` when it would wait.  A
receive from a full buffer lets the oldest waiting sender complete: its value
takes the freed slot.  With nothing buffered the value of a waiting sender is
handed over directly. -/
def Chan.recv (ch : Chan) : Option (Bytes × Bool × Chan) :=
  match ch.buf, ch.sendq with
  | v :: buf, [] => some (v, true, { ch with buf := buf })
  | v :: buf, d :: q => some (v, true, { ch with buf := buf ++ [d], sendq := q })
  | [], d :: q => some (d, true, { ch with sendq := q })
  | [], [] => if ch.closed then some ([], false, ch) else none

/-- How a call of `Send` proceeds. -/
inductive SendResult where
  /-- returned the error of `json.Marshal` -/
  | err (e : String)
  /-- returned `nil` -/
  | nil
  /-- waiting in `c.send <- data` -/
  | blocked
  /-- Go: `c.send` was closed -/
  | panicked
  deriving DecidableEq, Repr

/-- Go: `func (c *Client) Send(msg interface{}) error`; `marshal` is
`json.Marshal` on the message type `μ`. -/
def Client.Send {μ : Type} (marshal : μ → Except String Bytes) (msg : μ) (w : World α) :
    SendResult × World α :=
  match marshal msg with
  | .error e => (.err e, w.logf .error .marshalFailed)
  | .ok data =>
    match w.c.send.send data with
    | .done ch => (.nil, { w with c := { w.c with send := ch } })
    | .blocked ch => (.blocked, { w with c := { w.c with send := ch } })
    | .panicked => (.panicked, w)

/-- Calls of `Send` made one after the other by one caller, which goes on to
the next call only when the previous one has returned. -/
def sendAll {μ : Type} (marshal : μ → Except String Bytes) :
    List μ → World α → List SendResult × World α
  | [], w => ([], w)
  | m :: ms, w =>
    let r := Client.Send marshal m w
    match r.1 with
    | .blocked => ([.blocked], r.2)
    | .panicked => ([.panicked], r.2)
    | res => (res :: (sendAll marshal ms r.2).1, (sendAll marshal ms r.2).2)

/-! ## The outbound loop -/

/-- The case of the `select` that fires in one iteration, with the results of
the writes made in it. -/
inductive Select where
  /-- Go: `case message, ok := <-c.send`, with whether `NextWriter` and `w.Close`
  succeed -/
  | recv (nextWriterOk closeOk : Bool)
  /-- Go: `case <-ticker.C`, with whether the ping write succeeds -/
  | tick (pingOk : Bool)
  deriving DecidableEq, Repr

/-- One iteration of the `for`/`select` of `writePump`.  The boolean tells
whether the iteration executed `return`.  A `recv` case that is not ready
leaves the goroutine waiting in the `select`. -/
def writeStep (s : Select) (w : World α) : Bool × World α :=
  match s with
  | .recv nextWriterOk closeOk =>
    match w.c.send.recv with
    | none => (false, w)
    | some (message, ok, ch) =>
      let w : World α := { w with c := { w.c with send := ch } }
      let w := w.emit .setWriteDeadline
      if !ok then
        (true, w.emit .writeCloseMessage)
      else
        let w := w.emit (.nextWriter nextWriterOk)
        if !nextWriterOk then (true, w)
        else
          let w := w.emit (.write message)
          let w := w.emit (.writerClose closeOk)
          if !closeOk then (true, w) else (false, w)
  | .tick pingOk =>
    let w := w.emit .setWriteDeadline
    let w := w.emit (.writePing pingOk)
    if !pingOk then (true, w) else (false, w)

/-- The `for` loop of `writePump` over the cases that fire. -/
def writeLoop : List Select → World α → Bool × World α
  | [], w => (false, w)
  | s :: rest, w =>
    let r := writeStep s w
    if r.1 then (true, r.2) else writeLoop rest r.2

/-- The deferred function of `writePump`; the body runs under `c.Lock()`. -/
def writePumpCleanup (w : World α) : World α :=
  let w := w.emit .tickerStop
  let w := w.connClose
  w.setActive false

/-- Go: `func (c *Client) writePump()` -/
def Client.writePump (sel : List Select) (w : World α) : World α :=
  let w := w.emit .newTicker
  let r := writeLoop sel w
  if r.1 then writePumpCleanup r.2 else r.2

/-! ## What the peer receives -/

/-- The outgoing side of the connection: the complete text messages written so far
and, while a writer obtained from `NextWriter` is open, the bytes written to
it. -/
structure Wire where
  frames : List Bytes
  cur : Option Bytes
  deriving DecidableEq, Repr

/-- The effect of one event on the wire: a message is complete when its writer
is closed without error and holds what was written to that writer. -/
def Wire.step (s : Wire) : Event → Wire
  | .nextWriter true => { s with cur := some [] }
  | .write p => { s with cur := s.cur.map (fun m => m ++ p) }
  | .writerClose true =>
    match s.cur with
    | some m => { frames := s.frames ++ [m], cur := none }
    | none => s
  | .writerClose false => { s with cur := none }
  | _ => s

def wireOf (tr : List Event) : Wire := tr.foldl Wire.step { frames := [], cur := none }

/-- The text messages the peer has received after the effects `tr`. -/
def textFrames (tr : List Event) : List Bytes := (wireOf tr).frames

/-! ## A Client with its callers and its outbound loop -/

/-- One step of the system around a Client: a caller invokes `Send`, or the
`for` loop of the outbound goroutine (`writeLoop`) runs its next iteration. -/
inductive Action (μ : Type) where
  | send (msg : μ)
  | select (s : Select)

structure Sys (α : Type) where
  w : World α
  /-- the outbound loop has returned -/
  pumpDone : Bool
  /-- a goroutine panicked -/
  crashed : Bool

def Sys.step {μ : Type} (marshal : μ → Except String Bytes) (s : Sys α) : Action μ → Sys α
  | .send msg =>
    if s.crashed then s
    else
      let r := Client.Send marshal msg s.w
      { s with w := r.2, crashed := decide (r.1 = .panicked) }
  | .select sel =>
    if s.crashed || s.pumpDone then s
    else
      let r := writeLoop [sel] s.w
      if r.1 then { s with w := writePumpCleanup r.2, pumpDone := true }
      else { s with w := r.2 }

def Sys.run {μ : Type} (marshal : μ → Except String Bytes) (acts : List (Action μ))
    (s : Sys α) : Sys α :=
  acts.foldl (Sys.step marshal) s

/-- The messages passed to `Send` in a schedule, in call order. -/
def sentMsgs {μ : Type} : List (Action μ) → List μ
  | [] => []
  | .send m :: rest => m :: sentMsgs rest
  | .select _ :: rest => sentMsgs rest

/-- No write made in the schedule fails. -/
def noWriteFails {μ : Type} : List (Action μ) → Bool
  | [] => true
  | .send _ :: rest => noWriteFails rest
  | .select (.recv a b) :: rest => a && b && noWriteFails rest
  | .select (.tick a) :: rest => a && noWriteFails rest

/-! ## Teardown -/

/-- What can start a teardown of a Client. -/
inductive Trigger where
  /-- the inbound loop ends: its deferred `c.Destroy()` runs -/
  | readPumpEnds
  /-- the outbound loop ends: its deferred cleanup runs -/
  | writePumpEnds
  /-- a call of `Destroy` from outside the loops -/
  | destroy
  deriving DecidableEq, Repr

def Trigger.run (w : World α) : Trigger → World α
  | .readPumpEnds => Client.Destroy w
  | .writePumpEnds => writePumpCleanup w
  | .destroy => Client.Destroy w

/-- The teardown bodies run one after the other, each under the mutex. -/
def teardown (ts : List Trigger) (w : World α) : World α := ts.foldl Trigger.run w

/-- Number of calls of `c.Conn.Close()` in a trace. -/
def closes (tr : List Event) : Nat :=
  tr.countP (fun e => match e with | .connClose _ => true | _ => false)

/-- Number of submissions to the Hub unregister command in a trace. -/
def unregisters (tr : List Event) : Nat :=
  tr.countP (fun e => match e with | .unregister _ => true | _ => false)

/-- Number of invocations of the OnDisconnect hook in a trace. -/
def disconnects (tr : List Event) : Nat :=
  tr.countP (fun e => match e with | .onDisconnect _ => true | _ => false)

/-- Go: `n` calls of `Destroy` on the same Client, serialised by its mutex. -/
def destroyTimes : Nat → World α → World α
  | 0, w => w
  | n + 1, w => destroyTimes n (Client.Destroy w)

/-! ## Concrete inputs -/

/-- A pool with a send buffer of two payloads, autostart on, and an
`OnMessage` hook that asks to close on an empty payload. -/
def pool2 : Pool Unit :=
  { id := 0,
    Config := { Buffers := { Send := 2 }, DisableClientAutostart := false,
                OnConnect := fun u => u, OnDisconnect := fun u => u,
                OnMessage := fun u m => (m.isEmpty, u) } }

/-- A started Client on connection 7: what `newClient` returns for `pool2`. -/
def started7 : World Unit :=
  Client.Start
    { c := clientLiteral pool2 7 { buf := [], cap := 2, closed := false, sendq := [] },
      app := (), trace := [.log .debug .newClientCreated] }

/-! ## Definitions used by the statements -/

/-- A `json.Marshal` on optional bytes: `none` stands for a value that cannot be encoded -/
def marshalOpt : Option Bytes → Except String Bytes
  | none => .error ("json: unsupported type")
  | some b => .ok b

/-- The queue invariant: the buffer holds at most `cap` payloads. -/
def World.queueOk (w : World α) (K : Nat) : Prop :=
  w.c.send.cap = K ∧ w.c.send.buf.length ≤ K

/-- The outbound loop is running on an open queue, and a sender waits only
while the buffer is full. -/
def Sys.live (s : Sys α) : Prop :=
  s.w.c.send.closed = false ∧ s.crashed = false ∧ s.pumpDone = false ∧
  (s.w.c.send.sendq = [] ∨ s.w.c.send.cap ≤ s.w.c.send.buf.length)

/-- The payloads written so far followed by those still queued. -/
def Sys.stream (s : Sys α) : List Bytes :=
  textFrames s.w.trace ++ s.w.c.send.buf ++ s.w.c.send.sendq

/-- Number of payloads accepted by `Send` and not yet taken by the loop. -/
def Sys.pending (s : Sys α) : Nat :=
  s.w.c.send.buf.length + s.w.c.send.sendq.length

/-- Specification of the inbound loop, in the words of the spec: OnMessage is
handed every complete message in order, up to and including the first for
which the hook returns true.  Gives the messages handed over, whether the hook
asked to close, and the application state afterwards. -/
def deliveredUntilClose (onMessage : α → Bytes → Bool × α) :
    α → List Bytes → List Bytes × Bool × α
  | app, [] => ([], false, app)
  | app, m :: ms =>
    if (onMessage app m).1 then ([m], true, (onMessage app m).2)
    else
      (m :: (deliveredUntilClose onMessage (onMessage app m).2 ms).1,
       (deliveredUntilClose onMessage (onMessage app m).2 ms).2)

/-- One successful read followed by one hook invocation, per message. -/
def readEvents (conn : Conn) : List Bytes → List Event
  | [] => []
  | m :: ms => .readMessage true :: .onMessage conn m :: readEvents conn ms

/-- A going-away close error as the transport reports it. -/
def goingAway : ReadErr := { closeCode := some 1001, text := "websocket: close 1001 (going away)" }

/-- A protocol-error close as the transport reports it. -/
def protocolError : ReadErr :=
  { closeCode := some 1002, text := "websocket: close 1002 (protocol error)" }

/-- The abnormal closure the transport reports when the peer vanishes. -/
def unexpectedEOF : ReadErr :=
  { closeCode := some 1006, text := "websocket: close 1006 (abnormal closure): unexpected EOF" }

/-! ## Lemmas on traces -/

theorem writeLoop_single (sel : Select) (w : World α) :
    writeLoop [sel] w = writeStep sel w := by
  simp only [writeLoop]
  cases h : writeStep sel w with
  | mk a b => cases a <;> rfl

theorem closes_append (a b : List Event) : closes (a ++ b) = closes a + closes b := by
  simp [closes, List.countP_append]

theorem unregisters_append (a b : List Event) :
    unregisters (a ++ b) = unregisters a + unregisters b := by
  simp [unregisters, List.countP_append]

theorem disconnects_append (a b : List Event) :
    disconnects (a ++ b) = disconnects a + disconnects b := by
  simp [disconnects, List.countP_append]

theorem Destroy_trace (w : World α) :
    (Client.Destroy w).trace =
      w.trace ++ [.log .debug .aboutToDestroy, .unregister w.c.Conn, .setActive false,
                  .connClose w.c.Conn, .log .info .destroyed, .onDisconnect w.c.Conn] := by
  simp [Client.Destroy, World.logf, World.emit, World.hubUnregister, World.setActive,
    World.connClose, World.onDisconnect]

theorem Destroy_client (w : World α) :
    (Client.Destroy w).c = { w.c with Active := false } := rfl

theorem writePumpCleanup_trace (w : World α) :
    (writePumpCleanup w).trace =
      w.trace ++ [.tickerStop, .connClose w.c.Conn, .setActive false] := by
  simp [writePumpCleanup, World.emit, World.setActive, World.connClose]

theorem Destroy_counts (w : World α) :
    closes (Client.Destroy w).trace = closes w.trace + 1 ∧
    unregisters (Client.Destroy w).trace = unregisters w.trace + 1 ∧
    disconnects (Client.Destroy w).trace = disconnects w.trace + 1 := by
  rw [Destroy_trace, closes_append, unregisters_append, disconnects_append]
  simp [closes, unregisters, disconnects]

theorem writePumpCleanup_counts (w : World α) :
    closes (writePumpCleanup w).trace = closes w.trace + 1 ∧
    unregisters (writePumpCleanup w).trace = unregisters w.trace ∧
    disconnects (writePumpCleanup w).trace = disconnects w.trace := by
  rw [writePumpCleanup_trace, closes_append, unregisters_append, disconnects_append]
  simp [closes, unregisters, disconnects]

/-! ## Destroy -/

/-- C1 as stated fails: two calls of `Destroy` on the started Client of
connection 7 close the connection twice and invoke OnDisconnect twice, so the
close sequence did not run exactly once. -/
theorem Destroy_twice_runs_twice :
    closes (destroyTimes 2 started7).trace = 2 ∧
    disconnects (destroyTimes 2 started7).trace = 2 ∧
    ¬ (closes (destroyTimes 2 started7).trace = 1 ∧
       disconnects (destroyTimes 2 started7).trace = 1) := by
  decide

/-- C1, amended: `N` calls of `Destroy` on one Client, run one after the other
under its mutex, execute the close sequence `N` times, once per call: the
Close of the connection is invoked `N` times, the client is submitted to the
unregister command `N` times and OnDisconnect is invoked `N` times. -/
theorem destroyTimes_counts (N : Nat) (w : World α) :
    closes (destroyTimes N w).trace = closes w.trace + N ∧
    unregisters (destroyTimes N w).trace = unregisters w.trace + N ∧
    disconnects (destroyTimes N w).trace = disconnects w.trace + N := by
  induction N generalizing w with
  | zero => simp [destroyTimes]
  | succ n ih =>
    obtain ⟨h1, h2, h3⟩ := ih (Client.Destroy w)
    obtain ⟨d1, d2, d3⟩ := Destroy_counts w
    simp only [destroyTimes]
    omega

/-- C2: one call of `Destroy` logs the intent, submits the client to the
unregister command, sets Active to false, closes the connection and invokes
OnDisconnect with this client, in this order; the only other effect is the
completion log between the close and the hook.  Afterwards Active is false
whatever it was, the other fields of the Client are as before, and the
application state is the one the OnDisconnect hook returned. -/
theorem Destroy_order (w : World α) :
    (Client.Destroy w).trace =
      w.trace ++ [.log .debug .aboutToDestroy, .unregister w.c.Conn, .setActive false,
                  .connClose w.c.Conn, .log .info .destroyed, .onDisconnect w.c.Conn] ∧
    ((Client.Destroy w).trace.drop w.trace.length).filter
        (fun e => decide (e ≠ .log .info .destroyed)) =
      [.log .debug .aboutToDestroy, .unregister w.c.Conn, .setActive false,
       .connClose w.c.Conn, .onDisconnect w.c.Conn] ∧
    (Client.Destroy w).c.Active = false ∧
    (Client.Destroy w).c = { w.c with Active := false } ∧
    (Client.Destroy w).app = w.c.Pool.Config.OnDisconnect w.app := by
  refine ⟨Destroy_trace w, ?_, rfl, rfl, rfl⟩
  rw [Destroy_trace, List.drop_left]
  simp

/-! ## Start and the constructor -/

/-- C8: `Start` sets Active to true, submits the client to the register
command once, launches the inbound loop and the outbound loop, then invokes
OnConnect once with this client, in this order and with no other effect; so
OnConnect comes after the registration. -/
theorem Start_order (w : World α) :
    (Client.Start w).trace =
      w.trace ++ [.setActive true, .register w.c.Conn, .go .readPump, .go .writePump,
                  .onConnect w.c.Conn] ∧
    (Client.Start w).c = { w.c with Active := true } ∧
    (Client.Start w).app = w.c.Pool.Config.OnConnect w.app := by
  refine ⟨?_, rfl, rfl⟩
  simp [Client.Start, World.emit, World.hubRegister, World.setActive, World.onConnect]

theorem Send_done {μ : Type} (marshal : μ → Except String Bytes) (msg : μ) (data : Bytes)
    (w : World α) (hm : marshal msg = .ok data) (hc : w.c.send.closed = false)
    (hl : w.c.send.buf.length < w.c.send.cap) :
    Client.Send marshal msg w =
      (.nil, { w with c := { w.c with send :=
                { w.c.send with buf := w.c.send.buf ++ [data] } } }) := by
  simp [Client.Send, hm, Chan.send, hc, hl]

theorem Send_blocked {μ : Type} (marshal : μ → Except String Bytes) (msg : μ) (data : Bytes)
    (w : World α) (hm : marshal msg = .ok data) (hc : w.c.send.closed = false)
    (hl : w.c.send.cap ≤ w.c.send.buf.length) :
    Client.Send marshal msg w =
      (.blocked, { w with c := { w.c with send :=
                { w.c.send with sendq := w.c.send.sendq ++ [data] } } }) := by
  have : ¬ w.c.send.buf.length < w.c.send.cap := by omega
  simp [Client.Send, hm, Chan.send, hc, this]

/-- C3: `Send` returns an error exactly when the message cannot be serialized,
whatever the state of the queue.  When it returns an error nothing is
enqueued: the Client (queue, Active, connection) and the application state
are as before and the only effect is the error log.  When it returns nil the
serialization of the message, and nothing else, has been appended at the tail
of the outbound queue, and nothing else changed. -/
theorem Send_error_iff {μ : Type} (marshal : μ → Except String Bytes) (msg : μ)
    (w : World α) :
    ((∃ e, (Client.Send marshal msg w).1 = .err e) ↔ ∃ e, marshal msg = .error e) ∧
    (∀ e, (Client.Send marshal msg w).1 = .err e →
      (Client.Send marshal msg w).2.c = w.c ∧
      (Client.Send marshal msg w).2.app = w.app ∧
      (Client.Send marshal msg w).2.trace = w.trace ++ [.log .error .marshalFailed]) ∧
    ((Client.Send marshal msg w).1 = .nil →
      ∃ data, marshal msg = .ok data ∧
        (Client.Send marshal msg w).2 =
          { w with c := { w.c with send :=
              { w.c.send with buf := w.c.send.buf ++ [data] } } }) := by
  unfold Client.Send
  cases hm : marshal msg with
  | error e => simp [World.logf, World.emit]
  | ok data =>
    simp only [Chan.send]
    by_cases hc : w.c.send.closed = true
    · simp [hc]
    · by_cases hl : w.c.send.buf.length < w.c.send.cap
      · simp [hc, hl]
      · simp [hc, hl]

theorem Send_error_iff_witness :
    (Client.Send marshalOpt (some [1, 2]) started7).1 = .nil ∧
    ∃ data, marshalOpt (some [1, 2]) = .ok data ∧
      (Client.Send marshalOpt (some [1, 2]) started7).2 =
        { started7 with c := { started7.c with send :=
            { started7.c.send with buf := started7.c.send.buf ++ [data] } } } :=
  ⟨by decide, (Send_error_iff marshalOpt (some [1, 2]) started7).2.2 (by decide)⟩

theorem sendAll_fits {μ : Type} (marshal : μ → Except String Bytes) (enc : μ → Bytes)
    (msgs : List μ) (w : World α) (hm : ∀ m ∈ msgs, marshal m = .ok (enc m))
    (hc : w.c.send.closed = false)
    (hl : w.c.send.buf.length + msgs.length ≤ w.c.send.cap) :
    sendAll marshal msgs w =
      (List.replicate msgs.length .nil,
       { w with c := { w.c with send :=
          { w.c.send with buf := w.c.send.buf ++ msgs.map enc } } }) := by
  induction msgs generalizing w with
  | nil => simp [sendAll]
  | cons m ms ih =>
    have hlen : w.c.send.buf.length + (ms.length + 1) ≤ w.c.send.cap := by simpa using hl
    have h1 := Send_done marshal m (enc m) w (hm m (by simp)) hc (by omega)
    simp only [sendAll, h1]
    rw [ih _ (fun x hx => hm x (by simp [hx])) (by simpa using hc)
      (by simp only [List.length_append, List.length_singleton]; omega)]
    simp [List.replicate_succ]

theorem Chan.recv_inv (ch : Chan) (v : Bytes) (ok : Bool) (ch1 : Chan)
    (h : ch.recv = some (v, ok, ch1)) (hl : ch.buf.length ≤ ch.cap) :
    ch1.cap = ch.cap ∧ ch1.closed = ch.closed ∧ ch1.buf.length ≤ ch1.cap := by
  obtain ⟨buf, cap, closed, sendq⟩ := ch
  cases buf with
  | nil =>
    cases sendq with
    | nil =>
      cases closed <;> simp [Chan.recv] at h
      obtain ⟨_, _, rfl⟩ := h
      simp
    | cons d q =>
      simp [Chan.recv] at h
      obtain ⟨_, _, rfl⟩ := h
      simp
  | cons b bs =>
    cases sendq with
    | nil =>
      simp [Chan.recv] at h
      obtain ⟨_, _, rfl⟩ := h
      simp at hl ⊢; omega
    | cons d q =>
      simp [Chan.recv] at h
      obtain ⟨_, _, rfl⟩ := h
      simp at hl ⊢; omega

theorem Chan.send_inv (ch : Chan) (d : Bytes) (hl : ch.buf.length ≤ ch.cap) :
    (∀ ch1, ch.send d = .done ch1 →
      ch1.cap = ch.cap ∧ ch1.closed = ch.closed ∧ ch1.buf.length ≤ ch1.cap) ∧
    (∀ ch1, ch.send d = .blocked ch1 →
      ch1.cap = ch.cap ∧ ch1.closed = ch.closed ∧ ch1.buf.length ≤ ch1.cap) := by
  unfold Chan.send
  constructor <;> intro ch1 h <;> split_ifs at h <;> simp at h <;> subst h <;> simp <;> omega

theorem Send_queueOk {μ : Type} (marshal : μ → Except String Bytes) (msg : μ) (w : World α)
    (K : Nat) (h : w.queueOk K) : (Client.Send marshal msg w).2.queueOk K := by
  obtain ⟨hc, hl⟩ := h
  simp only [Client.Send, Chan.send, World.queueOk]
  cases marshal msg with
  | error e => exact ⟨hc, hl⟩
  | ok data =>
    simp only
    split_ifs with h1 h2
    · exact ⟨hc, hl⟩
    · refine ⟨hc, ?_⟩
      simp only [List.length_append, List.length_singleton]
      omega
    · exact ⟨hc, hl⟩

theorem writeStep_send (s : Select) (w : World α) :
    (writeStep s w).2.c.send = w.c.send ∨
    ∃ v ok ch, w.c.send.recv = some (v, ok, ch) ∧ (writeStep s w).2.c.send = ch := by
  cases s with
  | tick p => left; cases p <;> rfl
  | recv a b =>
    unfold writeStep
    cases hr : w.c.send.recv with
    | none => left; rfl
    | some r =>
      obtain ⟨v, ok, ch⟩ := r
      right
      refine ⟨v, ok, ch, rfl, ?_⟩
      cases ok <;> cases a <;> cases b <;> rfl

theorem writeStep_queueOk (s : Select) (w : World α) (K : Nat) (h : w.queueOk K) :
    (writeStep s w).2.queueOk K := by
  obtain ⟨hc, hl⟩ := h
  rcases writeStep_send s w with h1 | ⟨v, ok, ch, hr, h1⟩
  · exact ⟨by rw [h1]; exact hc, by rw [h1]; exact hl⟩
  · obtain ⟨a, _, b⟩ := Chan.recv_inv _ _ _ _ hr (by omega)
    exact ⟨by rw [h1, a]; exact hc, by rw [h1]; omega⟩

theorem Sys.step_queueOk {μ : Type} (marshal : μ → Except String Bytes) (a : Action μ)
    (s : Sys α) (K : Nat) (h : s.w.queueOk K) : (Sys.step marshal s a).w.queueOk K := by
  cases a with
  | send msg =>
    simp only [Sys.step, writeLoop_single]
    split_ifs
    · exact h
    · exact Send_queueOk marshal msg s.w K h
  | select sel =>
    simp only [Sys.step, writeLoop_single]
    split_ifs
    · exact h
    · exact writeStep_queueOk sel s.w K h
    · exact writeStep_queueOk sel s.w K h

theorem Sys.run_queueOk {μ : Type} (marshal : μ → Except String Bytes) (acts : List (Action μ))
    (s : Sys α) (K : Nat) (h : s.w.queueOk K) : (Sys.run marshal acts s).w.queueOk K := by
  induction acts generalizing s with
  | nil => exact h
  | cons a rest ih => exact ih _ (Sys.step_queueOk marshal a s K h)

theorem sends_keep_blocked {μ : Type} (marshal : μ → Except String Bytes) (more : List μ)
    (s : Sys α) (d : Bytes) (q : List Bytes) (hc : s.w.c.send.closed = false)
    (hcr : s.crashed = false) (hfull : s.w.c.send.cap ≤ s.w.c.send.buf.length)
    (hq : s.w.c.send.sendq = d :: q) :
    (Sys.run marshal (more.map .send) s).w.c.send.buf = s.w.c.send.buf ∧
    ∃ q1, (Sys.run marshal (more.map .send) s).w.c.send.sendq = d :: q1 := by
  induction more generalizing s q with
  | nil => exact ⟨rfl, q, hq⟩
  | cons m ms ih =>
    have hnl : ¬ s.w.c.send.buf.length < s.w.c.send.cap := by omega
    simp only [List.map_cons, Sys.run, List.foldl_cons]
    cases hm : marshal m with
    | error e =>
      have hs : Sys.step marshal s (.send m) =
          { s with w := s.w.logf .error .marshalFailed, crashed := false } := by
        simp [Sys.step, writeLoop_single, hcr, Client.Send, hm]
      rw [hs]
      exact ih _ q hc rfl hfull hq
    | ok data =>
      have hs : Sys.step marshal s (.send m) =
          { s with w := { s.w with c := { s.w.c with send :=
              { s.w.c.send with sendq := s.w.c.send.sendq ++ [data] } } },
                   crashed := false } := by
        simp [Sys.step, writeLoop_single, hcr, Client.Send, hm, Chan.send, hc, hnl]
      rw [hs]
      exact ih _ (q ++ [data]) hc rfl hfull (by simp [hq])

/-- C4: on a Client with an empty, open queue of capacity `K` and no consumer,
`K` consecutive Sends of serializable messages all return nil, the queue
holding `i` payloads after the `i`-th; the next Send blocks: its payload waits
outside the buffer, which still holds the `K` payloads, and it stays so
whatever further Sends are made; one receive from the queue takes the oldest
payload and lets the blocked Send complete, its payload now last in a queue of
`K`.  In every schedule of Sends and outbound-loop iterations the buffer
never holds more than `K` payloads. -/
theorem Send_backpressure {μ : Type} (marshal : μ → Except String Bytes) (enc : μ → Bytes)
    (K : Nat) (msgs : List μ) (extra : μ) (w : World α)
    (hq : w.c.send = { buf := [], cap := K, closed := false, sendq := [] })
    (hlen : msgs.length = K)
    (hm : ∀ m ∈ extra :: msgs, marshal m = .ok (enc m)) :
    (sendAll marshal msgs w).1 = List.replicate K .nil ∧
    (sendAll marshal msgs w).2.c.send =
      { buf := msgs.map enc, cap := K, closed := false, sendq := [] } ∧
    (∀ i, i ≤ K →
      (sendAll marshal (msgs.take i) w).1 = List.replicate i .nil ∧
      (sendAll marshal (msgs.take i) w).2.c.send.buf = (msgs.take i).map enc ∧
      (sendAll marshal (msgs.take i) w).2.c.send.buf.length = i) ∧
    (Client.Send marshal extra (sendAll marshal msgs w).2).1 = .blocked ∧
    (Client.Send marshal extra (sendAll marshal msgs w).2).2.c.send =
      { buf := msgs.map enc, cap := K, closed := false, sendq := [enc extra] } ∧
    (∀ more : List μ,
      (Sys.run marshal (more.map .send)
        { w := (Client.Send marshal extra (sendAll marshal msgs w).2).2,
          pumpDone := false, crashed := false }).w.c.send.buf = msgs.map enc ∧
      ∃ q, (Sys.run marshal (more.map .send)
        { w := (Client.Send marshal extra (sendAll marshal msgs w).2).2,
          pumpDone := false, crashed := false }).w.c.send.sendq = enc extra :: q) ∧
    (∃ v ch, (Client.Send marshal extra (sendAll marshal msgs w).2).2.c.send.recv =
        some (v, true, ch) ∧
      v :: ch.buf = msgs.map enc ++ [enc extra] ∧ ch.buf.length = K ∧
      ch.sendq = [] ∧ ch.cap = K ∧ ch.closed = false) ∧
    (∀ acts : List (Action μ),
      (Sys.run marshal acts { w := w, pumpDone := false, crashed := false }).w.c.send.buf.length
        ≤ K) := by
  have hmm : ∀ m ∈ msgs, marshal m = .ok (enc m) := fun m h => hm m (by simp [h])
  have hall := sendAll_fits marshal enc msgs w hmm (by rw [hq]) (by rw [hq]; simp [hlen])
  have hw1 : (sendAll marshal msgs w).2.c.send =
      { buf := msgs.map enc, cap := K, closed := false, sendq := [] } := by
    rw [hall]; simp [hq]
  have hblk := Send_blocked marshal extra (enc extra) (sendAll marshal msgs w).2
    (hm extra (by simp)) (by rw [hw1]) (by rw [hw1]; simp [hlen])
  have hw2 : (Client.Send marshal extra (sendAll marshal msgs w).2).2.c.send =
      { buf := msgs.map enc, cap := K, closed := false, sendq := [enc extra] } := by
    rw [hblk]; simp [hw1]
  refine ⟨by rw [hall, hlen], hw1, ?_, by rw [hblk], hw2, ?_, ?_, ?_⟩
  · intro i hi
    have hti : (msgs.take i).length = i := by simp [hlen, hi]
    have h := sendAll_fits marshal enc (msgs.take i) w
      (fun m h => hmm m (List.mem_of_mem_take h)) (by rw [hq]) (by rw [hq, hti]; simpa using hi)
    rw [h, hti]
    simp [hq, hlen, hi]
  · intro more
    have h := sends_keep_blocked marshal more
      { w := (Client.Send marshal extra (sendAll marshal msgs w).2).2,
        pumpDone := false, crashed := false } (enc extra) []
      (by simp [hw2]) rfl (by simp [hw2, hlen]) (by simp [hw2])
    simpa [hw2] using h
  · rw [hw2]
    cases msgs with
    | nil =>
      refine ⟨enc extra, Chan.mk [] K false [], ?_⟩
      simp [Chan.recv]
      simpa using hlen
    | cons m ms =>
      refine ⟨enc m, Chan.mk (ms.map enc ++ [enc extra]) K false [], ?_⟩
      simp [Chan.recv]
      simpa using hlen
  · intro acts
    exact (Sys.run_queueOk marshal acts _ K ⟨by simp [hq], by simp [hq]⟩).2

theorem Send_backpressure_witness :
    (sendAll marshalOpt [some [1], some [2]] started7).1 = [.nil, .nil] ∧
    (Client.Send marshalOpt (some [3])
      (sendAll marshalOpt [some [1], some [2]] started7).2).1 = .blocked :=
  have h := Send_backpressure marshalOpt (fun m => m.getD []) 2 [some [1], some [2]]
    (some [3]) started7 (by decide) (by decide)
    (by intro m hm; simp at hm; rcases hm with rfl | rfl | rfl <;> rfl)
  ⟨h.1, h.2.2.2.1⟩

theorem wireOf_append (a b : List Event) : wireOf (a ++ b) = b.foldl Wire.step (wireOf a) := by
  simp [wireOf, List.foldl_append]

theorem wireOf_text (tr : List Event) (v : Bytes) :
    wireOf (tr ++ [.setWriteDeadline] ++ [.nextWriter true] ++ [.write v] ++
      [.writerClose true]) = { frames := (wireOf tr).frames ++ [v], cur := none } := by
  simp [wireOf_append, Wire.step]

theorem wireOf_ping (tr : List Event) :
    wireOf (tr ++ [.setWriteDeadline] ++ [.writePing true]) = wireOf tr := by
  simp [wireOf_append, Wire.step]

theorem step_send_live {μ : Type} (marshal : μ → Except String Bytes) (m : μ) (d : Bytes)
    (s : Sys α) (hl : s.live) (hm : marshal m = .ok d) :
    (Sys.step marshal s (.send m)).live ∧
    (Sys.step marshal s (.send m)).stream = s.stream ++ [d] := by
  obtain ⟨hc, hcr, hp, hq⟩ := hl
  by_cases hlen : s.w.c.send.buf.length < s.w.c.send.cap
  · have hq0 : s.w.c.send.sendq = [] := by
      rcases hq with h | h
      · exact h
      · omega
    have hs : Sys.step marshal s (.send m) =
        { s with w := { s.w with c := { s.w.c with send :=
            { s.w.c.send with buf := s.w.c.send.buf ++ [d] } } }, crashed := false } := by
      simp [Sys.step, writeLoop_single, hcr, Client.Send, hm, Chan.send, hc, hlen]
    rw [hs]
    refine ⟨⟨hc, rfl, hp, Or.inl hq0⟩, ?_⟩
    simp [Sys.stream, hq0]
  · have hs : Sys.step marshal s (.send m) =
        { s with w := { s.w with c := { s.w.c with send :=
            { s.w.c.send with sendq := s.w.c.send.sendq ++ [d] } } }, crashed := false } := by
      simp [Sys.step, writeLoop_single, hcr, Client.Send, hm, Chan.send, hc, hlen]
    rw [hs]
    refine ⟨⟨hc, rfl, hp, Or.inr (by simp only; omega)⟩, ?_⟩
    simp [Sys.stream]

theorem step_tick_live {μ : Type} (marshal : μ → Except String Bytes) (s : Sys α)
    (hl : s.live) :
    (Sys.step marshal s (.select (.tick true))).live ∧
    (Sys.step marshal s (.select (.tick true))).stream = s.stream ∧
    (Sys.step marshal s (.select (.tick true))).pending = s.pending := by
  obtain ⟨hc, hcr, hp, hq⟩ := hl
  have hs : Sys.step marshal s (.select (.tick true)) =
      { s with w := { s.w with trace := s.w.trace ++ [.setWriteDeadline] ++ [.writePing true] } } := by
    simp [Sys.step, writeLoop_single, hcr, hp, writeStep, World.emit]
  rw [hs]
  refine ⟨⟨hc, hcr, hp, hq⟩, ?_, rfl⟩
  simp only [Sys.stream, textFrames, wireOf_ping]

theorem step_recv_live {μ : Type} (marshal : μ → Except String Bytes) (s : Sys α)
    (hl : s.live) :
    (Sys.step marshal s (.select (.recv true true))).live ∧
    (Sys.step marshal s (.select (.recv true true))).stream = s.stream ∧
    (Sys.step marshal s (.select (.recv true true))).pending = s.pending - 1 := by
  obtain ⟨hc, hcr, hp, hq⟩ := hl
  obtain ⟨⟨⟨pool, conn, ⟨buf, cap, closed, sendq⟩, md, auth, act⟩, app, tr⟩, pd, cr⟩ := s
  simp only at hc hcr hp hq
  subst hc hcr hp
  cases buf with
  | nil =>
    cases sendq with
    | nil =>
      have hs : Sys.step marshal
          (Sys.mk (World.mk (Client.mk pool conn (Chan.mk [] cap false []) md auth act) app tr)
            false false) (.select (.recv true true)) =
          Sys.mk (World.mk (Client.mk pool conn (Chan.mk [] cap false []) md auth act) app tr)
            false false := by
        simp [Sys.step, writeLoop_single, writeStep, Chan.recv]
      rw [hs]
      exact ⟨⟨rfl, rfl, rfl, hq⟩, rfl, rfl⟩
    | cons d q =>
      have hs : Sys.step marshal
          (Sys.mk (World.mk (Client.mk pool conn (Chan.mk [] cap false (d :: q)) md auth act)
            app tr) false false) (.select (.recv true true)) =
          Sys.mk (World.mk (Client.mk pool conn (Chan.mk [] cap false q) md auth act) app
            (tr ++ [.setWriteDeadline] ++ [.nextWriter true] ++ [.write d] ++
              [.writerClose true])) false false := by
        simp [Sys.step, writeLoop_single, writeStep, Chan.recv, World.emit]
      rw [hs]
      refine ⟨⟨rfl, rfl, rfl, ?_⟩, ?_, ?_⟩
      · right
        rcases hq with h | h
        · simp at h
        · simpa using h
      · simp only [Sys.stream, textFrames, wireOf_text tr d]
        simp
      · simp [Sys.pending]
  | cons v b =>
    cases sendq with
    | nil =>
      have hs : Sys.step marshal
          (Sys.mk (World.mk (Client.mk pool conn (Chan.mk (v :: b) cap false []) md auth act)
            app tr) false false) (.select (.recv true true)) =
          Sys.mk (World.mk (Client.mk pool conn (Chan.mk b cap false []) md auth act) app
            (tr ++ [.setWriteDeadline] ++ [.nextWriter true] ++ [.write v] ++
              [.writerClose true])) false false := by
        simp [Sys.step, writeLoop_single, writeStep, Chan.recv, World.emit]
      rw [hs]
      refine ⟨⟨rfl, rfl, rfl, Or.inl rfl⟩, ?_, ?_⟩
      · simp only [Sys.stream, textFrames, wireOf_text tr v]
        simp
      · simp [Sys.pending]
    | cons d q =>
      have hs : Sys.step marshal
          (Sys.mk (World.mk (Client.mk pool conn (Chan.mk (v :: b) cap false (d :: q)) md auth
            act) app tr) false false) (.select (.recv true true)) =
          Sys.mk (World.mk (Client.mk pool conn (Chan.mk (b ++ [d]) cap false q) md auth act)
            app (tr ++ [.setWriteDeadline] ++ [.nextWriter true] ++ [.write v] ++
              [.writerClose true])) false false := by
        simp [Sys.step, writeLoop_single, writeStep, Chan.recv, World.emit]
      rw [hs]
      refine ⟨⟨rfl, rfl, rfl, ?_⟩, ?_, ?_⟩
      · right
        rcases hq with h | h
        · simp at h
        · simpa using h
      · simp only [Sys.stream, textFrames, wireOf_text tr v]
        simp
      · simp [Sys.pending]

theorem run_live {μ : Type} (marshal : μ → Except String Bytes) (enc : μ → Bytes)
    (acts : List (Action μ)) (s : Sys α) (hl : s.live) (hnf : noWriteFails acts = true)
    (hm : ∀ m ∈ sentMsgs acts, marshal m = .ok (enc m)) :
    (Sys.run marshal acts s).live ∧
    (Sys.run marshal acts s).stream = s.stream ++ (sentMsgs acts).map enc := by
  induction acts generalizing s with
  | nil => simp [Sys.run, sentMsgs, hl]
  | cons a rest ih =>
    cases a with
    | send m =>
      have h1 := step_send_live marshal m (enc m) s hl (hm m (by simp [sentMsgs]))
      have h2 := ih (Sys.step marshal s (.send m)) h1.1 (by simpa [noWriteFails] using hnf)
        (fun x hx => hm x (by simp [sentMsgs, hx]))
      refine ⟨h2.1, ?_⟩
      have : Sys.run marshal (Action.send m :: rest) s =
          Sys.run marshal rest (Sys.step marshal s (.send m)) := rfl
      rw [this, h2.2, h1.2]
      simp [sentMsgs]
    | select sel =>
      cases sel with
      | recv a b =>
        simp only [noWriteFails, Bool.and_eq_true] at hnf
        obtain ⟨⟨rfl, rfl⟩, hnf⟩ := hnf
        have h1 := step_recv_live marshal s hl
        have h2 := ih (Sys.step marshal s (.select (.recv true true))) h1.1 hnf
          (fun x hx => hm x (by simpa [sentMsgs] using hx))
        refine ⟨h2.1, ?_⟩
        have : Sys.run marshal (Action.select (.recv true true) :: rest) s =
            Sys.run marshal rest (Sys.step marshal s (.select (.recv true true))) := rfl
        rw [this, h2.2, h1.2.1]
        simp [sentMsgs]
      | tick a =>
        simp only [noWriteFails, Bool.and_eq_true] at hnf
        obtain ⟨rfl, hnf⟩ := hnf
        have h1 := step_tick_live marshal s hl
        have h2 := ih (Sys.step marshal s (.select (.tick true))) h1.1 hnf
          (fun x hx => hm x (by simpa [sentMsgs] using hx))
        refine ⟨h2.1, ?_⟩
        have : Sys.run marshal (Action.select (.tick true) :: rest) s =
            Sys.run marshal rest (Sys.step marshal s (.select (.tick true))) := rfl
        rw [this, h2.2, h1.2.1]
        simp [sentMsgs]

theorem run_drain {μ : Type} (marshal : μ → Except String Bytes) (n : Nat) (s : Sys α)
    (hl : s.live) (hn : s.pending ≤ n) :
    (Sys.run marshal (List.replicate n (Action.select (.recv true true))) s).stream = s.stream ∧
    (Sys.run marshal (List.replicate n (Action.select (.recv true true))) s).pending = 0 := by
  induction n generalizing s with
  | zero => exact ⟨rfl, by simpa [Sys.run] using hn⟩
  | succ k ih =>
    have h1 := step_recv_live marshal s hl
    have h2 := ih (Sys.step marshal s (.select (.recv true true))) h1.1 (by rw [h1.2.2]; omega)
    have : Sys.run marshal (List.replicate (k + 1) (Action.select (.recv true true))) s =
        Sys.run marshal (List.replicate k (Action.select (.recv true true)))
          (Sys.step marshal s (.select (.recv true true))) := rfl
    rw [this]
    exact ⟨by rw [h2.1, h1.2.1], h2.2⟩

theorem Sys.run_append {μ : Type} (marshal : μ → Except String Bytes) (a b : List (Action μ))
    (s : Sys α) : Sys.run marshal (a ++ b) s = Sys.run marshal b (Sys.run marshal a s) := by
  simp [Sys.run, List.foldl_append]

theorem stream_of_pending_zero (s : Sys α) (h : s.pending = 0) :
    s.stream = textFrames s.w.trace := by
  have h1 : s.w.c.send.buf = [] := List.length_eq_zero.mp (by unfold Sys.pending at h; omega)
  have h2 : s.w.c.send.sendq = [] := List.length_eq_zero.mp (by unfold Sys.pending at h; omega)
  simp [Sys.stream, h1, h2]

theorem Sys.run_pumpDone {μ : Type} (marshal : μ → Except String Bytes) (sel : List Select)
    (s : Sys α) (h : s.pumpDone = true) :
    Sys.run marshal (sel.map Action.select) s = s := by
  induction sel with
  | nil => rfl
  | cons x rest ih =>
    have e : Sys.run marshal ((x :: rest).map Action.select) s =
        Sys.run marshal (rest.map Action.select) (Sys.step marshal s (.select x)) := rfl
    have e2 : Sys.step marshal s (.select x) = s := by simp [Sys.step, writeLoop_single, h]
    rw [e, e2, ih]

theorem Sys.run_selects {μ : Type} (marshal : μ → Except String Bytes) (sel : List Select)
    (w : World α) :
    Sys.run marshal (sel.map Action.select)
        { w := w.emit .newTicker, pumpDone := false, crashed := false } =
      { w := Client.writePump sel w, pumpDone := (writeLoop sel (w.emit .newTicker)).1,
        crashed := false } := by
  suffices h : ∀ v : World α,
      Sys.run marshal (sel.map Action.select) { w := v, pumpDone := false, crashed := false } =
        { w := if (writeLoop sel v).1 then writePumpCleanup (writeLoop sel v).2
               else (writeLoop sel v).2,
          pumpDone := (writeLoop sel v).1, crashed := false } by
    rw [h]; rfl
  induction sel with
  | nil => intro v; simp [Sys.run, writeLoop]
  | cons x rest ih =>
    intro v
    have e : Sys.run marshal ((x :: rest).map Action.select) (Sys.mk v false false) =
        Sys.run marshal (rest.map Action.select)
          (Sys.step marshal (Sys.mk v false false) (.select x)) := rfl
    rw [e]
    by_cases hx : (writeStep x v).1 = true
    · have e2 : Sys.step marshal (Sys.mk v false false) (.select x) =
          Sys.mk (writePumpCleanup (writeStep x v).2) true false := by
        simp [Sys.step, writeLoop_single, hx]
      rw [e2, Sys.run_pumpDone marshal rest _ rfl]
      simp [writeLoop, hx]
    · have e2 : Sys.step marshal (Sys.mk v false false) (.select x) =
          Sys.mk (writeStep x v).2 false false := by
        simp [Sys.step, writeLoop_single, hx]
      rw [e2, ih]
      simp [writeLoop, hx]

theorem step_send_pending {μ : Type} (marshal : μ → Except String Bytes) (m : μ) (d : Bytes)
    (s : Sys α) (hl : s.live) (hm : marshal m = .ok d) :
    (Sys.step marshal s (.send m)).pending = s.pending + 1 := by
  obtain ⟨hc, hcr, hp, hq⟩ := hl
  by_cases hlen : s.w.c.send.buf.length < s.w.c.send.cap
  · have hs : Sys.step marshal s (.send m) =
        { s with w := { s.w with c := { s.w.c with send :=
            { s.w.c.send with buf := s.w.c.send.buf ++ [d] } } }, crashed := false } := by
      simp [Sys.step, hcr, Client.Send, hm, Chan.send, hc, hlen]
    rw [hs]
    simp [Sys.pending]
    omega
  · have hs : Sys.step marshal s (.send m) =
        { s with w := { s.w with c := { s.w.c with send :=
            { s.w.c.send with sendq := s.w.c.send.sendq ++ [d] } } }, crashed := false } := by
      simp [Sys.step, hcr, Client.Send, hm, Chan.send, hc, hlen]
    rw [hs]
    simp [Sys.pending]
    omega

theorem run_pending {μ : Type} (marshal : μ → Except String Bytes) (enc : μ → Bytes)
    (acts : List (Action μ)) (s : Sys α) (hl : s.live) (hnf : noWriteFails acts = true)
    (hm : ∀ m ∈ sentMsgs acts, marshal m = .ok (enc m)) :
    (Sys.run marshal acts s).pending ≤ s.pending + (sentMsgs acts).length := by
  induction acts generalizing s with
  | nil => simp [Sys.run, sentMsgs]
  | cons a rest ih =>
    have e : Sys.run marshal (a :: rest) s = Sys.run marshal rest (Sys.step marshal s a) := rfl
    rw [e]
    cases a with
    | send m =>
      have h0 := hm m (by simp [sentMsgs])
      have h1 := step_send_live marshal m (enc m) s hl h0
      have h2 := ih (Sys.step marshal s (.send m)) h1.1 (by simpa [noWriteFails] using hnf)
        (fun x hx => hm x (by simp [sentMsgs, hx]))
      rw [step_send_pending marshal m (enc m) s hl h0] at h2
      simp only [sentMsgs, List.length_cons]
      omega
    | select sel =>
      cases sel with
      | recv a b =>
        simp only [noWriteFails, Bool.and_eq_true] at hnf
        obtain ⟨⟨rfl, rfl⟩, hnf⟩ := hnf
        have h1 := step_recv_live marshal s hl
        have h2 := ih (Sys.step marshal s (.select (.recv true true))) h1.1 hnf
          (fun x hx => hm x (by simpa [sentMsgs] using hx))
        rw [h1.2.2] at h2
        simp only [sentMsgs]
        omega
      | tick a =>
        simp only [noWriteFails, Bool.and_eq_true] at hnf
        obtain ⟨rfl, hnf⟩ := hnf
        have h1 := step_tick_live marshal s hl
        have h2 := ih (Sys.step marshal s (.select (.tick true))) h1.1 hnf
          (fun x hx => hm x (by simpa [sentMsgs] using hx))
        rw [h1.2.2] at h2
        simp only [sentMsgs]
        omega

theorem sentMsgs_map_send {μ : Type} (msgs : List μ) :
    sentMsgs (msgs.map Action.send) = msgs := by
  induction msgs with
  | nil => rfl
  | cons m ms ih => simp [sentMsgs, ih]

theorem noWriteFails_map_send {μ : Type} (msgs : List μ) :
    noWriteFails (msgs.map Action.send) = true := by
  induction msgs with
  | nil => rfl
  | cons m ms ih => simpa [noWriteFails] using ih

theorem sentMsgs_map_select {μ : Type} (sels : List Select) :
    sentMsgs (sels.map (Action.select : Select → Action μ)) = [] := by
  induction sels with
  | nil => rfl
  | cons x xs ih => simpa [sentMsgs] using ih

theorem textFrames_newTicker (tr : List Event) :
    textFrames (tr ++ [.newTicker]) = textFrames tr := by
  simp [textFrames, wireOf_append, Wire.step]

/-- The outbound goroutine started on a world whose queue holds payloads, with
no write failing: what it writes, followed by what is still queued, is what
was written and queued before; once it has made as many receive iterations
as payloads were queued, everything queued has been written. -/
theorem writePump_drains {μ : Type} (marshal : μ → Except String Bytes) (enc : μ → Bytes)
    (sels : List Select) (v : World α) (hc : v.c.send.closed = false)
    (hq : v.c.send.sendq = [] ∨ v.c.send.cap ≤ v.c.send.buf.length)
    (hnf : noWriteFails (sels.map (Action.select : Select → Action μ)) = true) :
    textFrames (Client.writePump sels v).trace ++ (Client.writePump sels v).c.send.buf ++
        (Client.writePump sels v).c.send.sendq =
      textFrames v.trace ++ v.c.send.buf ++ v.c.send.sendq ∧
    (∀ n, v.c.send.buf.length + v.c.send.sendq.length ≤ n →
      textFrames (Client.writePump (sels ++ List.replicate n (.recv true true)) v).trace =
        textFrames v.trace ++ v.c.send.buf ++ v.c.send.sendq) := by
  have hl : (Sys.mk (v.emit .newTicker) false false).live := ⟨hc, rfl, rfl, hq⟩
  have h0 : (Sys.mk (v.emit .newTicker) false false).stream =
      textFrames v.trace ++ v.c.send.buf ++ v.c.send.sendq := by
    simp [Sys.stream, World.emit, textFrames_newTicker]
  have hm : ∀ m ∈ sentMsgs (sels.map (Action.select : Select → Action μ)),
      marshal m = .ok (enc m) := by
    intro m h; rw [sentMsgs_map_select] at h; simp at h
  have h1 := run_live marshal enc _ _ hl hnf hm
  have h2 := run_pending marshal enc _ _ hl hnf hm
  rw [sentMsgs_map_select] at h1 h2
  have hb := Sys.run_selects marshal sels v
  constructor
  · have := h1.2
    rw [hb, h0] at this
    simpa [Sys.stream] using this
  · intro n hn
    have hb2 := Sys.run_selects marshal (sels ++ List.replicate n (.recv true true)) v
    rw [List.map_append, List.map_replicate, Sys.run_append] at hb2
    have h3 := run_drain marshal n _ h1.1
      (by simp only [List.length_nil, Nat.add_zero] at h2
          exact le_trans h2 (by simpa [Sys.pending, World.emit] using hn))
    rw [hb2] at h3
    have h4 := stream_of_pending_zero _ h3.2
    rw [h3.1, h1.2, h0] at h4
    simpa using h4.symm

/-- C5: start from a Client with an empty, open queue and nothing written yet,
and take any schedule of `Send` calls and iterations of the loop of
`writePump` in which no write fails and every message sent is serializable.
At every moment the text messages written so far, followed by the payloads
still queued, are the serializations of the messages in call order; once the
loop has taken every queued payload the text messages written are exactly
these serializations: one message per `Send`, holding exactly its payload, in
call order.  The same for `writePump` itself, started after the Sends were
made: whatever iterations it runs, what it has written followed by what is
still queued is the serializations in call order, and after as many further
receive iterations as messages were sent it has written exactly them. -/
theorem outbound_frames_in_order {μ : Type} (marshal : μ → Except String Bytes)
    (enc : μ → Bytes) (w : World α) (acts : List (Action μ))
    (hbuf : w.c.send.buf = []) (hsq : w.c.send.sendq = []) (hcl : w.c.send.closed = false)
    (hw : textFrames w.trace = [])
    (hnf : noWriteFails acts = true)
    (hm : ∀ m ∈ sentMsgs acts, marshal m = .ok (enc m)) :
    textFrames (Sys.run marshal acts { w := w, pumpDone := false, crashed := false }).w.trace ++
        (Sys.run marshal acts { w := w, pumpDone := false, crashed := false }).w.c.send.buf ++
        (Sys.run marshal acts { w := w, pumpDone := false, crashed := false }).w.c.send.sendq =
      (sentMsgs acts).map enc ∧
    (∀ n, (Sys.run marshal acts { w := w, pumpDone := false, crashed := false }).pending ≤ n →
      textFrames (Sys.run marshal (acts ++ List.replicate n (Action.select (.recv true true)))
        { w := w, pumpDone := false, crashed := false }).w.trace = (sentMsgs acts).map enc) ∧
    (∀ sels : List Select,
      noWriteFails (sels.map (Action.select : Select → Action μ)) = true →
      textFrames (Client.writePump sels
            (Sys.run marshal ((sentMsgs acts).map Action.send)
              { w := w, pumpDone := false, crashed := false }).w).trace ++
          (Client.writePump sels
            (Sys.run marshal ((sentMsgs acts).map Action.send)
              { w := w, pumpDone := false, crashed := false }).w).c.send.buf ++
          (Client.writePump sels
            (Sys.run marshal ((sentMsgs acts).map Action.send)
              { w := w, pumpDone := false, crashed := false }).w).c.send.sendq =
        (sentMsgs acts).map enc ∧
      ∀ n, (sentMsgs acts).length ≤ n →
        textFrames (Client.writePump (sels ++ List.replicate n (.recv true true))
            (Sys.run marshal ((sentMsgs acts).map Action.send)
              { w := w, pumpDone := false, crashed := false }).w).trace =
          (sentMsgs acts).map enc) := by
  have hl : (Sys.mk w false false).live := ⟨hcl, rfl, rfl, Or.inl hsq⟩
  have h0 : (Sys.mk w false false).stream = [] := by simp [Sys.stream, hw, hbuf, hsq]
  have hp0 : (Sys.mk w false false).pending = 0 := by simp [Sys.pending, hbuf, hsq]
  have h1 := run_live marshal enc acts (Sys.mk w false false) hl hnf hm
  rw [h0, List.nil_append] at h1
  refine ⟨h1.2, ?_, ?_⟩
  · intro n hn
    have h2 := run_drain marshal n _ h1.1 hn
    rw [Sys.run_append, ← stream_of_pending_zero _ h2.2, h2.1, h1.2]
  · intro sels hsel
    have hm2 : ∀ m ∈ sentMsgs ((sentMsgs acts).map Action.send), marshal m = .ok (enc m) := by
      rw [sentMsgs_map_send]; exact hm
    have hs := run_live marshal enc ((sentMsgs acts).map Action.send) (Sys.mk w false false) hl
      (noWriteFails_map_send _) hm2
    have hp := run_pending marshal enc ((sentMsgs acts).map Action.send) (Sys.mk w false false)
      hl (noWriteFails_map_send _) hm2
    rw [sentMsgs_map_send, h0, List.nil_append] at hs
    rw [sentMsgs_map_send, hp0, Nat.zero_add] at hp
    have hd := writePump_drains marshal enc sels
      (Sys.run marshal ((sentMsgs acts).map Action.send) (Sys.mk w false false)).w
      hs.1.1 hs.1.2.2.2 hsel
    have hst : textFrames
          (Sys.run marshal ((sentMsgs acts).map Action.send) (Sys.mk w false false)).w.trace ++
        (Sys.run marshal ((sentMsgs acts).map Action.send) (Sys.mk w false false)).w.c.send.buf ++
        (Sys.run marshal ((sentMsgs acts).map Action.send) (Sys.mk w false false)).w.c.send.sendq
          = (sentMsgs acts).map enc := hs.2
    rw [hst] at hd
    exact ⟨hd.1, fun n hn => hd.2 n (le_trans hp hn)⟩

theorem outbound_frames_in_order_witness :
    textFrames (Sys.run marshalOpt
        ([.send (some [1]), .send (some [2]), .select (.recv true true), .send (some [3]),
          .select (.tick true)] ++ List.replicate 2 (Action.select (.recv true true)))
        { w := started7, pumpDone := false, crashed := false }).w.trace =
      [[1], [2], [3]] ∧
    textFrames (Client.writePump ([.tick true, .recv true true] ++
        List.replicate 3 (.recv true true))
        (Sys.run marshalOpt [.send (some [1]), .send (some [2]), .send (some [3])]
          { w := started7, pumpDone := false, crashed := false }).w).trace =
      [[1], [2], [3]] :=
  have h := outbound_frames_in_order marshalOpt (fun m => m.getD []) started7
    [.send (some [1]), .send (some [2]), .select (.recv true true), .send (some [3]),
      .select (.tick true)]
    (by decide) (by decide) (by decide) (by decide) (by decide)
    (by intro m hm; simp [sentMsgs] at hm; rcases hm with rfl | rfl | rfl <;> rfl)
  ⟨h.2.1 2 (by decide), (h.2.2 [.tick true, .recv true true] (by decide)).2 3 (by decide)⟩

theorem readLoop_messages (msgs : List Bytes) (err : ReadErr) (rest : List ReadResult)
    (w : World α) :
    readLoop (msgs.map .message ++ .error err :: rest) w =
      (true,
       { c := w.c,
         app := (deliveredUntilClose w.c.Pool.Config.OnMessage w.app msgs).2.2,
         trace := w.trace ++
           readEvents w.c.Conn (deliveredUntilClose w.c.Pool.Config.OnMessage w.app msgs).1 ++
           (if (deliveredUntilClose w.c.Pool.Config.OnMessage w.app msgs).2.1 then []
            else [.readMessage false, .log (readErrorLog err).1 (readErrorLog err).2]) }) := by
  induction msgs generalizing w with
  | nil =>
    simp [readLoop, deliveredUntilClose, readEvents, World.emit, World.logf]
  | cons m ms ih =>
    have e : readLoop (List.map ReadResult.message (m :: ms) ++ .error err :: rest) w =
        if (w.c.Pool.Config.OnMessage w.app m).1 = true then
          (true, ((w.emit (.readMessage true)).onMessage m).2)
        else
          readLoop (ms.map .message ++ .error err :: rest)
            ((w.emit (.readMessage true)).onMessage m).2 := rfl
    rw [e]
    by_cases h : (w.c.Pool.Config.OnMessage w.app m).1 = true
    · simp [h, deliveredUntilClose, readEvents, World.onMessage, World.emit]
    · rw [if_neg h, ih]
      simp [h, deliveredUntilClose, readEvents, World.onMessage, World.emit]

theorem deliveredUntilClose_initial (f : α → Bytes → Bool × α) (app : α) (msgs : List Bytes) :
    (deliveredUntilClose f app msgs).1 <+: msgs := by
  induction msgs generalizing app with
  | nil => simp [deliveredUntilClose]
  | cons m ms ih =>
    simp only [deliveredUntilClose]
    split_ifs
    · simp
    · simpa using ih _

/-- C9: on read results made of complete messages followed by a read error,
`readPump` sets up the connection, then for each message in order reads it and
invokes OnMessage with the client and the payload, up to and including the
first message for which the hook returns true; if no hook asked to close, it
makes the failing read and logs it, without invoking OnMessage for it; it
reads nothing further and then runs `Destroy` once, as its last action.  The
messages handed to the hook are an initial segment of those read. -/
theorem readPump_delivers_then_destroys (msgs : List Bytes) (err : ReadErr)
    (rest : List ReadResult) (w : World α) :
    Client.readPump (msgs.map .message ++ .error err :: rest) w =
      Client.Destroy
        { c := w.c,
          app := (deliveredUntilClose w.c.Pool.Config.OnMessage w.app msgs).2.2,
          trace := w.trace ++ [.setReadLimit, .setReadDeadline, .setPongHandler] ++
            readEvents w.c.Conn (deliveredUntilClose w.c.Pool.Config.OnMessage w.app msgs).1 ++
            (if (deliveredUntilClose w.c.Pool.Config.OnMessage w.app msgs).2.1 then []
             else [.readMessage false, .log (readErrorLog err).1 (readErrorLog err).2]) } ∧
    (deliveredUntilClose w.c.Pool.Config.OnMessage w.app msgs).1 <+: msgs := by
  refine ⟨?_, deliveredUntilClose_initial _ _ _⟩
  simp only [Client.readPump, World.emit]
  rw [readLoop_messages]
  simp

/-- C10 as stated fails: a going-away close (code 1001) is an expected closure,
and the inbound loop logs it at warning severity, not at info. -/
theorem goingAway_logged_at_warn :
    goingAway.closeCode = some CloseGoingAway ∧
    readErrorLog goingAway = (.warn, .readError) ∧
    (readErrorLog goingAway).1 ≠ .info := by
  decide

/-- C10, amended: a read error is logged at info severity exactly when it is
not an unexpected close error (not a close error with a code other than 1001
and 1006) and its text is the abnormal-closure text
"websocket: close 1006 (abnormal closure): unexpected EOF"; every other read
error is logged at warning severity, in particular every close error with a
code other than 1001 and 1006.  In all cases the loop is left the same way, by
`break` after the log, whatever read results would follow: no retry. -/
theorem readErrorLog_levels (err : ReadErr) :
    ((readErrorLog err).1 = .info ↔
      (IsUnexpectedCloseError err [CloseGoingAway, CloseAbnormalClosure] = false ∧
       err.text = "websocket: close 1006 (abnormal closure): unexpected EOF")) ∧
    ((readErrorLog err).1 ≠ .info → (readErrorLog err).1 = .warn) ∧
    (∀ code, err.closeCode = some code → code ≠ CloseGoingAway → code ≠ CloseAbnormalClosure →
      readErrorLog err = (.warn, .unexpectedCloseError)) ∧
    (∀ (β : Type) (rest : List ReadResult) (w : World β),
      readLoop (.error err :: rest) w =
        (true, (w.emit (.readMessage false)).logf (readErrorLog err).1 (readErrorLog err).2)) := by
  refine ⟨?_, ?_, ?_, ?_⟩
  · unfold readErrorLog
    split_ifs with h1 h2
    · simp [h1]
    · simp at h2; simp [h1, h2]
    · simp at h2; simp [h1, h2]
  · unfold readErrorLog
    split_ifs <;> simp
  · intro code hc h1 h2
    have : IsUnexpectedCloseError err [CloseGoingAway, CloseAbnormalClosure] = true := by
      simp [IsUnexpectedCloseError, hc, h1, h2]
    simp [readErrorLog, this]
  · intro β rest w
    rfl

theorem readErrorLog_levels_witness :
    (readErrorLog unexpectedEOF).1 = .info ∧
    readErrorLog protocolError = (.warn, .unexpectedCloseError) :=
  ⟨(readErrorLog_levels unexpectedEOF).1.mpr ⟨by decide, by decide⟩,
   (readErrorLog_levels protocolError).2.2.1 1002 rfl (by decide) (by decide)⟩

/-- C6, amended: over a teardown every trigger that fires invokes Close of the
connection once (each run of `Destroy`, from the end of the inbound loop or
from an outside call, and the deferred cleanup of the outbound loop); the
client is submitted to the unregister command, and OnDisconnect invoked, once
by every run of `Destroy` and never by the cleanup of the outbound loop. -/
theorem teardown_counts (ts : List Trigger) (w : World α) :
    closes (teardown ts w).trace = closes w.trace + ts.length ∧
    unregisters (teardown ts w).trace =
      unregisters w.trace + (ts.filter (fun t => decide (t ≠ .writePumpEnds))).length ∧
    disconnects (teardown ts w).trace =
      disconnects w.trace + (ts.filter (fun t => decide (t ≠ .writePumpEnds))).length := by
  induction ts generalizing w with
  | nil => simp [teardown]
  | cons t rest ih =>
    have hstep : teardown (t :: rest) w = teardown rest (Trigger.run w t) := rfl
    rw [hstep]
    obtain ⟨h1, h2, h3⟩ := ih (Trigger.run w t)
    cases t with
    | readPumpEnds =>
      obtain ⟨d1, d2, d3⟩ := Destroy_counts w
      simp only [Trigger.run] at h1 h2 h3 ⊢
      simp [h1, h2, h3, d1, d2, d3]; omega
    | writePumpEnds =>
      obtain ⟨d1, d2, d3⟩ := writePumpCleanup_counts w
      simp only [Trigger.run] at h1 h2 h3 ⊢
      simp [h1, h2, h3, d1, d2, d3]; omega
    | destroy =>
      obtain ⟨d1, d2, d3⟩ := Destroy_counts w
      simp only [Trigger.run] at h1 h2 h3 ⊢
      simp [h1, h2, h3, d1, d2, d3]; omega

/-- C6 as stated fails: on the started Client of connection 7 the end of the
inbound loop followed by the end of the outbound loop closes the connection
twice, and an outside `Destroy` followed by the end of the inbound loop
submits the client to the unregister command twice; the same counts come out
of the two loops run on a read error and a failed ping. -/
theorem teardown_double_close :
    closes started7.trace = 0 ∧ unregisters started7.trace = 0 ∧
    closes (teardown [.readPumpEnds, .writePumpEnds] started7).trace = 2 ∧
    unregisters (teardown [.destroy, .readPumpEnds] started7).trace = 2 ∧
    closes (Client.writePump [.tick false] (Client.readPump [.error unexpectedEOF] started7)).trace
      = 2 ∧
    unregisters (Client.readPump [.error unexpectedEOF] (Client.Destroy started7)).trace = 2 := by
  decide

/-! ## The harnesses against the loops -/

theorem readPump_ends_by_Destroy (reads : List ReadResult) (w : World α)
    (h : (readLoop reads
      (((w.emit .setReadLimit).emit .setReadDeadline).emit .setPongHandler)).1 = true) :
    Client.readPump reads w =
      Trigger.run (readLoop reads
        (((w.emit .setReadLimit).emit .setReadDeadline).emit .setPongHandler)).2
        .readPumpEnds := by
  simp [Client.readPump, h, Trigger.run]

theorem writePump_ends_by_cleanup (sel : List Select) (w : World α)
    (h : (writeLoop sel (w.emit .newTicker)).1 = true) :
    Client.writePump sel w =
      Trigger.run (writeLoop sel (w.emit .newTicker)).2 .writePumpEnds := by
  simp [Client.writePump, h, Trigger.run]

end Socketcast
